import Mathlib

/-!
Verification development for the batch translation orchestrator
(`batch_translator.py`).  The Python module is shallowly embedded into
Lean: machine floats used for delays and timestamps are modelled as
rationals (the delay arithmetic involved — `1.0 / 0.2`, doubling, capping
at `30.0` — is exact in both representations), the shared manager dicts
become association lists threaded through the functions, wall-clock time
becomes explicit time parameters, and the cooperative stop flag becomes an
oracle `Nat → Bool` giving the value read at each successive poll point.
-/

namespace BatchTranslator

/-! ## Configuration constants (`batch_translator.py` lines 26-57) -/

def REQUESTS_PER_SECOND : ℚ := 1/5

def BASE_BACKOFF_SECONDS : ℚ := 1

def MAX_BACKOFF_SECONDS : ℚ := 30

def MAX_TRANSIENT_ATTEMPTS : Nat := 4

def TRANSLATE_CALL_TIMEOUT_SECONDS : ℚ := 5

def DONE_SUFFIX : String := ".done"

/-- The static fallback table `LANGUAGE_FALLBACKS` (lines 51-57). -/
def LANGUAGE_FALLBACKS : List (String × String) :=
  [("kl", "da"), ("fy", "nl"), ("lb", "de")]

/-! ## String helpers

Python string operations are embedded as structurally recursive functions
over the character list of the string, so that every definition evaluates
inside the kernel. -/

/-- `sub in hay` for Python strings: `sub` occurs contiguously in `hay`. -/
def containsSub (hay sub : String) : Bool :=
  (List.range (hay.data.length + 1)).any (fun i => sub.data.isPrefixOf (hay.data.drop i))

/-- `str.split(sep)` for a one-character separator. -/
def splitChar (sep : Char) : List Char → List Char → List (List Char)
  | [], acc => [acc.reverse]
  | c :: cs, acc =>
      if c = sep then acc.reverse :: splitChar sep cs []
      else splitChar sep cs (c :: acc)

/-- `str.strip()`: leading and trailing whitespace removed. -/
def pyStrip (s : String) : String :=
  ⟨(((s.data.dropWhile Char.isWhitespace).reverse).dropWhile Char.isWhitespace).reverse⟩

/-- `str.lower()`. -/
def pyLower (s : String) : String :=
  ⟨s.data.map Char.toLower⟩

/-- `str.endswith(post)`. -/
def pyEndsWith (s post : String) : Bool :=
  post.data.isSuffixOf s.data

/-- `get_target_language` (lines 76-84): base name (the file names here carry
no directory part), last extension removed (`os.path.splitext`), first
component before `"_"`. -/
def get_target_language (fileName : String) : String :=
  let parts := splitChar '.' fileName.data []
  let base := if parts.length ≤ 1 then fileName.data else List.intercalate ['.'] parts.dropLast
  ⟨base.takeWhile (fun c => c ≠ '_')⟩

/-! ## Language resolver (`resolve_effective_language`, lines 60-74) -/

def resolve_effective_language (raw : String) : String × Bool :=
  match List.lookup raw LANGUAGE_FALLBACKS with
  | some eff => (eff, true)
  | none => (raw, false)

/-! ## Error classification (`translate_text` lines 277-283 and 388-403)

A provider failure is a Python exception; what the classifier inspects is
whether it is a `TimeoutError` instance and its message string. -/

structure PErr where
  isTimeoutError : Bool
  msg : String
deriving DecidableEq

def FATAL_SUBSTRINGS : List String :=
  ["generator raised StopIteration", "unsupported language",
   "invalid target language", "BAD_REQUEST", "NEXT AVAILABLE IN"]

/-- `isinstance(e, TimeoutError) or "timed out" in msg.lower()` (line 390). -/
def isTimeoutFailure (e : PErr) : Bool :=
  e.isTimeoutError || containsSub (pyLower e.msg) "timed out"

/-- `fatal = is_timeout or any(sub in msg for sub in FATAL_SUBSTRINGS)` (line 392). -/
def isFatalFailure (e : PErr) : Bool :=
  isTimeoutFailure e || FATAL_SUBSTRINGS.any (fun sub => containsSub e.msg sub)

/-- The transient test of lines 394-403. -/
def isTransientFailure (e : PErr) : Bool :=
  !isFatalFailure e &&
    (containsSub e.msg "429" || containsSub e.msg "Too Many Requests" ||
     containsSub e.msg "RemoteDisconnected" ||
     containsSub (pyLower e.msg) "connection aborted" ||
     containsSub (pyLower e.msg) "temporary failure")

/-! ## Dictionaries

Python dicts become association lists; assignment `d[k] = v` replaces the
entry in place when the key is present (insertion order is kept) and
appends otherwise, matching dict semantics. -/

abbrev Dict := List (String × String)

def dictSet (m : Dict) (k v : String) : Dict :=
  if m.any (fun p => p.1 == k) then
    m.map (fun p => if p.1 == k then (k, v) else p)
  else m ++ [(k, v)]

/-- The shared `lang_key_cache`: effective language → (key → translation). -/
abbrev Cache := List (String × Dict)

/-- `store_and_return`'s cache update (lines 285-296):
`current = cache.get(lang) or {}; current[key] = v; cache[lang] = current`. -/
def cacheSet (c : Cache) (lang key v : String) : Cache :=
  let cur := (List.lookup lang c).getD []
  let cur' := dictSet cur key v
  if c.any (fun p => p.1 == lang) then
    c.map (fun p => if p.1 == lang then (lang, cur') else p)
  else c ++ [(lang, cur')]

/-- The cache-hit test of lines 261-267:
`lang_cache = cache.get(lang); lang_cache is not None and key in lang_cache`. -/
def cacheGet (c : Cache) (lang key : String) : Option String :=
  (List.lookup lang c).bind (fun m => List.lookup key m)

/-! ## Cooperative cancellation

`control_state["stop"]` is read at many poll points (`process_translation_file`
entry, the top of the per-key loop, the top of every retry attempt, the entry
of `safe_translate_with_timeout`, each slice of `cooperative_sleep`).  A run is
embedded with a stop oracle giving the value read at the n-th poll; reads are
numbered in execution order.  A sleep polls the flag a timing-dependent number
of times; since every poll has the same effect (raise `KeyboardInterrupt` when
true), each sleep is represented by its mandatory first poll. -/

abbrev StopOracle := Nat → Bool

/-! ## `translate_text` (lines 231-458)

The provider is embedded as the outcome of its n-th invocation within the
call (1-indexed by attempt number): either an exception (`PErr`) or a result;
`some s` is a string result and `none` the `None`/non-string result handled at
lines 345-353.  The rate-limiter wait (lines 317-335) only delays the call and
polls the stop flag, so in this time-free embedding it contributes the poll
made by its `cooperative_sleep`. -/

abbrev Provider := Nat → Except PErr (Option String)

/-- Backoff computation of lines 424-426: `base * 2 ** (attempt - 1)`,
capped at `MAX_BACKOFF_SECONDS`. -/
def backoffFor (attempt : Nat) : ℚ :=
  if BASE_BACKOFF_SECONDS * 2 ^ (attempt - 1) > MAX_BACKOFF_SECONDS then MAX_BACKOFF_SECONDS
  else BASE_BACKOFF_SECONDS * 2 ^ (attempt - 1)

/-- Observable outcome of one `translate_text` call: the returned value
(`none` both when cancelled and for the unreachable loop fall-through),
the cache afterwards, the number of provider invocations, the backoff
sleeps performed, the next poll index, and whether the call unwound with
`KeyboardInterrupt`. -/
structure TTOut where
  result : Option String
  cache : Cache
  calls : Nat
  backoffs : List ℚ
  poll : Nat
  cancelled : Bool
deriving DecidableEq

/-- The retry loop of lines 298-458.  `attempt` is the Python loop variable,
`remaining` the iterations the `range` still holds.  Each iteration polls the
flag at the loop top (line 299), in the rate-limiter wait (line 332 via
`cooperative_sleep`; in the code that poll happens only when a sleep is
actually needed — a timing-dependent fact, so the embedding includes it
unconditionally, which is harmless because every poll either reads false and
continues or reads true and unwinds) and at `safe_translate_with_timeout`
entry (line 162), then invokes the provider; a transient failure with budget
left polls once more in the backoff sleep (line 442). -/
def ttLoop (key textStr lang : String) (provider : Provider) (stop : StopOracle) :
    Nat → Nat → Nat → Nat → List ℚ → Cache → TTOut
  | _attempt, 0, poll, calls, backoffs, cache =>
      ⟨none, cache, calls, backoffs, poll, false⟩
  | attempt, remaining + 1, poll, calls, backoffs, cache =>
      if stop poll then ⟨none, cache, calls, backoffs, poll + 1, true⟩
      else if stop (poll + 1) then ⟨none, cache, calls, backoffs, poll + 2, true⟩
      else if stop (poll + 2) then ⟨none, cache, calls, backoffs, poll + 3, true⟩
      else
        match provider attempt with
        | .ok (some s) =>
            ⟨some s, cacheSet cache lang key s, calls + 1, backoffs, poll + 3, false⟩
        | .ok none =>
            ⟨some textStr, cacheSet cache lang key textStr, calls + 1, backoffs, poll + 3, false⟩
        | .error e =>
            if isFatalFailure e || !isTransientFailure e then
              ⟨some textStr, cacheSet cache lang key textStr, calls + 1, backoffs, poll + 3, false⟩
            else if attempt < MAX_TRANSIENT_ATTEMPTS then
              if stop (poll + 3) then
                ⟨none, cache, calls + 1, backoffs, poll + 4, true⟩
              else
                ttLoop key textStr lang provider stop (attempt + 1) remaining (poll + 4)
                  (calls + 1) (backoffs ++ [backoffFor attempt]) cache
            else
              ⟨some textStr, cacheSet cache lang key textStr, calls + 1, backoffs, poll + 3, false⟩

/-- `translate_text`: cache lookup (lines 261-267), the empty-text short
circuit (lines 269-274), then the retry loop started at attempt 1 with
`MAX_TRANSIENT_ATTEMPTS` iterations available. -/
def translate_text (key text lang : String) (provider : Provider)
    (stop : StopOracle) (poll : Nat) (cache : Cache) : TTOut :=
  match cacheGet cache lang key with
  | some v => ⟨some v, cache, 0, [], poll, false⟩
  | none =>
      if text == "" || pyStrip text == "" then ⟨some text, cache, 0, [], poll, false⟩
      else ttLoop key text lang provider stop 1 MAX_TRANSIENT_ATTEMPTS poll 0 [] cache

/-! ## Rate limiter (lines 316-335)

The whole check-sleep-stamp sequence runs under `rate_lock`, so across all
workers the reservations form one sequence.  One reservation reads the clock
(`now = time.time()`, line 318), computes
`sleep_needed = minInterval - (now - last)`, sleeps that long when positive,
and stamps a fresh clock read (`time.time()`, line 335).  Each reservation
is embedded by its pair of clock reads `(now, stamp)`; physically possible
reads satisfy `validReads`: clocks are monotone (`now ≤ stamp`) and
`cooperative_sleep` returns only once its deadline `now + sleep_needed` has
passed. -/

def minInterval : ℚ := 1 / REQUESTS_PER_SECOND

/-- The constraint the clock obeys for a sequence of reservations whose
reads are `(now, stamp)` pairs, starting from the stamp `last`. -/
def validReads (last : ℚ) : List (ℚ × ℚ) → Bool
  | [] => true
  | (now, stamp) :: rest =>
      decide (now ≤ stamp) &&
      (if 0 < minInterval - (now - last) then
        decide (now + (minInterval - (now - last)) ≤ stamp)
      else true) &&
      validReads stamp rest

/-- The stamp sequence the reservations write into
`rate_state["last_request_time"]`. -/
def runReservations (last : ℚ) : List (ℚ × ℚ) → List ℚ
  | [] => []
  | (_, stamp) :: rest => stamp :: runReservations stamp rest

/-! ## `safe_translate_with_timeout` (lines 143-229)

The wrapped call is embedded by its behaviour: it either never returns, or
completes after `t` seconds with a result or an exception.  Elapsed wall-clock
time for the caller is tracked in `WithTop ℚ` (`⊤` = the caller never regains
control).  The `finally` block (lines 220-229) calls
`executor.shutdown(wait=True)` only when no timeout occurred — on the timeout
path the code has already shut down with `wait=False` (line 207), which is
what keeps a hung call from blocking the caller. -/

instance {ε α : Type} [DecidableEq ε] [DecidableEq α] : DecidableEq (Except ε α) := fun x y =>
  match x, y with
  | .error a, .error b => decidable_of_iff (a = b) (by simp)
  | .ok a, .ok b => decidable_of_iff (a = b) (by simp)
  | .error _, .ok _ => isFalse (by simp)
  | .ok _, .error _ => isFalse (by simp)

inductive FnBehavior
  | hang
  | completes (t : ℚ) (out : Except PErr String)
deriving DecidableEq

inductive CallOutcome
  | ok (s : String)
  | raised (e : PErr)
  | timedOutErr
  | interrupted
deriving DecidableEq

/-- Wall-clock moment at which `executor.shutdown` returns, entered at moment
`now`: with `wait := True` it blocks until the worker thread is done. -/
def shutdownDone (wait : Bool) (fb : FnBehavior) (now : ℚ) : WithTop ℚ :=
  if wait then
    match fb with
    | .hang => ⊤
    | .completes t _ => (max now t : ℚ)
  else (now : ℚ)

/-- `safe_translate_with_timeout`: outcome for the caller and the moment
(counted from call entry) at which the caller regains control. -/
def safe_translate_with_timeout (stop : Bool) (fb : FnBehavior) (timeout : ℚ) :
    CallOutcome × WithTop ℚ :=
  if stop then (.interrupted, (0 : ℚ))
  else
    match fb with
    | .hang => (.timedOutErr, shutdownDone false .hang timeout)
    | .completes t out =>
        if t ≤ timeout then
          (match out with
           | .ok s => CallOutcome.ok s
           | .error e => CallOutcome.raised e,
           shutdownDone true (.completes t out) t)
        else (.timedOutErr, shutdownDone false (.completes t out) timeout)

/-! ## Filesystem model

The translations directory: `files` maps each file name to its parsed JSON
content, in directory-listing order (`os.listdir` enumerates `files.map fst`);
`done` is the set of file names whose `.done` marker exists.  Writing a file
keeps its listing position (new files are appended).  File contents are the
parsed key→string catalogs; the program serialises every catalog it writes
with the one deterministic form `json.dump(..., ensure_ascii=False, indent=4)`
over insertion-ordered dicts, so equal catalogs mean byte-identical files. -/

structure FS where
  files : List (String × Dict)
  done : List String
deriving DecidableEq

def setFile (fs : FS) (name : String) (content : Dict) : FS :=
  ⟨if fs.files.any (fun p => p.1 == name) then
      fs.files.map (fun p => if p.1 == name then (name, content) else p)
    else fs.files ++ [(name, content)],
   fs.done⟩

def addDone (fs : FS) (name : String) : FS :=
  ⟨fs.files, if fs.done.contains name then fs.done else fs.done ++ [name]⟩

/-- The reference-donor predicate of lines 575-591: another `.json` file in
the listing, not the file itself, with the same effective language and an
existing `.done` marker. -/
def isDonorFor (fs : FS) (filename eff : String) (g : String) : Bool :=
  pyEndsWith g ".json" && g != filename &&
    (resolve_effective_language (get_target_language g)).1 == eff &&
    fs.done.contains g

/-- The reference scan (lines 573-592): first match in listing order
(the loop breaks at the first hit). -/
def findReference (fs : FS) (filename eff : String) : Option String :=
  (fs.files.map Prod.fst).find? (isDonorFor fs filename eff)

/-- All donor candidates, in listing order. -/
def candidateDonors (fs : FS) (filename eff : String) : List String :=
  (fs.files.map Prod.fst).filter (isDonorFor fs filename eff)

/-- Lexicographic (alphabetical) order on character lists. -/
def lexLe : List Char → List Char → Bool
  | [], _ => true
  | _ :: _, [] => false
  | a :: as, b :: bs => if a < b then true else if a = b then lexLe as bs else false

/-- Alphabetical order on strings. -/
def strLe (a b : String) : Bool := lexLe a.data b.data

/-- The donor the spec describes: first alphabetically among the candidates. -/
def donorAlphabetical (fs : FS) (filename eff : String) : Option String :=
  ((candidateDonors fs filename eff).insertionSort (fun a b => strLe a b = true)).head?

/-- The `work_needed` scan of lines 666-673: some source key is missing,
empty, or still equal to the source value (`if not existing or existing ==
value`). -/
def workNeeded (source : Dict) (td : Dict) : Bool :=
  source.any (fun p =>
    match List.lookup p.1 td with
    | none => true
    | some ex => ex == "" || ex == p.2)

/-! ## `process_translation_file` (lines 460-835) -/

/-- Observable outcome of one `process_translation_file` call.  `cancelled`
marks the `KeyboardInterrupt` unwind; the filesystem and cache states are
carried on every path since shared-cache mutations made before a cancellation
persist. -/
structure PRun where
  fs : FS
  cache : Cache
  calls : Nat
  scans : Nat
  poll : Nat
  cancelled : Bool
deriving DecidableEq

/-- The per-key loop of lines 737-785, over the source catalog in order.
`provider` gives each key its own provider behaviour.  Non-string source
values cannot arise in the embedding (catalogs map keys to strings), so each
iteration polls the flag (line 738), reuses an already-translated value
(lines 750-754: `if existing and existing != value`, caching it) or calls
`translate_text`, and stores the result into the in-memory target data.
The `.getD p.2` default on `translate_text`'s result is dead code: started
with a full attempt budget the loop always returns a value (`ttLoop_ok`
below). -/
def keyLoop (eff : String) (provider : String → Provider) (stop : StopOracle) :
    List (String × String) → Dict → Cache → Nat → Nat → Dict × Cache × Nat × Nat × Bool
  | [], td, cache, calls, poll => (td, cache, calls, poll, false)
  | p :: rest, td, cache, calls, poll =>
      if stop poll then (td, cache, calls, poll + 1, true)
      else
        match List.lookup p.1 td with
        | some ex =>
            if ex != "" && ex != p.2 then
              keyLoop eff provider stop rest (dictSet td p.1 ex)
                (cacheSet cache eff p.1 ex) calls (poll + 1)
            else
              let out := translate_text p.1 p.2 eff (provider p.1) stop (poll + 1) cache
              if out.cancelled then (td, out.cache, calls + out.calls, out.poll, true)
              else
                keyLoop eff provider stop rest (dictSet td p.1 (out.result.getD p.2))
                  out.cache (calls + out.calls) out.poll
        | none =>
            let out := translate_text p.1 p.2 eff (provider p.1) stop (poll + 1) cache
            if out.cancelled then (td, out.cache, calls + out.calls, out.poll, true)
            else
              keyLoop eff provider stop rest (dictSet td p.1 (out.result.getD p.2))
                out.cache (calls + out.calls) out.poll

/-- `process_translation_file`: stop check at entry (line 486), `.done`
skip (line 510), the `en` clone special case (lines 534-567), the reference
scan and clone (lines 573-641), the `work_needed` skip (lines 665-700), and
otherwise the per-key translation loop followed by the file write and the
`.done` marker write (lines 804-822).  Clone-path read failures (the
`except` blocks) return with nothing written.  The `Translator` constructor
(lines 703-727) is embedded as always succeeding; its failure path returns
with nothing written and no provider call made, so no claim here depends
on it. -/
def process_translation_file (filename : String) (source : Dict)
    (provider : String → Provider) (stop : StopOracle)
    (fs : FS) (cache : Cache) (poll : Nat) : PRun :=
  if stop poll then ⟨fs, cache, 0, 0, poll + 1, true⟩
  else
    let raw := get_target_language filename
    let eff := (resolve_effective_language raw).1
    if fs.done.contains filename then ⟨fs, cache, 0, 0, poll + 1, false⟩
    else if raw == "en" then
      match List.lookup "en_GB.json" fs.files with
      | some d => ⟨addDone (setFile fs filename d) filename, cache, 0, 0, poll + 1, false⟩
      | none => ⟨fs, cache, 0, 0, poll + 1, false⟩
    else
      match findReference fs filename eff with
      | some ref =>
          match List.lookup ref fs.files with
          | some d => ⟨addDone (setFile fs filename d) filename, cache, 0, 1, poll + 1, false⟩
          | none => ⟨fs, cache, 0, 1, poll + 1, false⟩
      | none =>
          let td := (List.lookup filename fs.files).getD []
          if !workNeeded source td then ⟨addDone fs filename, cache, 0, 1, poll + 1, false⟩
          else
            match keyLoop eff provider stop source td cache 0 (poll + 1) with
            | (td', cache', calls, poll', cancelled) =>
                if cancelled then ⟨fs, cache', calls, 1, poll', true⟩
                else ⟨addDone (setFile fs filename td') filename, cache', calls, 1, poll', false⟩

/-- The orchestrator's dispatch over the file list (sequentialised: each
output file is owned by exactly one worker and the shared rate-limiter lock
serialises cross-worker effects; a cancellation stops the dispatch of further
results).  Returns the final state and the file whose processing was
cancelled, if any. -/
def runFiles (source : Dict) (provider : String → Provider) (stop : StopOracle) :
    List String → FS → Cache → Nat → FS × Cache × Nat × Option String
  | [], fs, cache, poll => (fs, cache, poll, none)
  | f :: rest, fs, cache, poll =>
      let r := process_translation_file f source provider stop fs cache poll
      if r.cancelled then (r.fs, r.cache, r.poll, some f)
      else runFiles source provider stop rest r.fs r.cache r.poll

/-! ## Concrete instances used to exercise the theorems -/

/-- A provider stub failing with a transient-pattern error on its first two
invocations and succeeding on the third. -/
def provTransientTwice : Provider := fun n =>
  if n ≤ 2 then .error ⟨false, "HTTP Error 429: Too Many Requests"⟩
  else .ok (some "Hola")

/-- A provider stub raising a fatal-pattern error on every invocation. -/
def provFatal : Provider := fun _ => .error ⟨false, "unsupported language"⟩

/-- A provider stub failing transiently once and then hitting the hard call
timeout. -/
def provThenTimeout : Provider := fun n =>
  if n = 1 then .error ⟨false, "HTTP Error 429: Too Many Requests"⟩
  else .error ⟨true, "Translation call exceeded 5.0s timeout"⟩

/-- A directory with two completed Spanish variants listed in
non-alphabetical order, and an untranslated third variant. -/
def fsSpanish : FS :=
  ⟨[("es_MX.json", [("hello", "HolaMX")]),
    ("es_ES.json", [("hello", "HolaES")]),
    ("es_AR.json", [])],
   ["es_MX.json", "es_ES.json"]⟩

/-- A directory whose listing is alphabetically sorted, with one completed
Spanish variant. -/
def fsSorted : FS :=
  ⟨[("es_ES.json", [("hello", "Hola")]), ("es_MX.json", [])],
   ["es_ES.json"]⟩

/-- A directory holding the source catalog `en_GB.json` and an untouched
English variant. -/
def fsEnglish : FS :=
  ⟨[("en_GB.json", [("hello", "Hello"), ("bye", "Goodbye")]), ("en_US.json", [])],
   []⟩

/-! ## Association-list lemmas -/

theorem lookup_map_set_self {β : Type} (m : List (String × β)) (k : String) (v : β)
    (h : m.any (fun p => p.1 == k) = true) :
    List.lookup k (m.map (fun p => if p.1 == k then (k, v) else p)) = some v := by
  induction m with
  | nil => simp at h
  | cons p t ih =>
      simp only [List.map_cons]
      cases hb : (p.1 == k) with
      | true =>
          simp [List.lookup]
      | false =>
          have hkb : (k == p.1) = false := by
            simp only [beq_eq_false_iff_ne] at hb ⊢
            exact fun hk => hb hk.symm
          simp only [List.any_cons, hb, Bool.false_or] at h
          simp only [Bool.false_eq_true, if_false, List.lookup, hkb]
          exact ih h

theorem lookup_append_set {β : Type} (m : List (String × β)) (k : String) (v : β) :
    List.lookup k (m ++ [(k, v)]) = (List.lookup k m).getD v := by
  induction m with
  | nil => simp [List.lookup]
  | cons p t ih =>
      by_cases hp : k = p.1
      · simp [List.lookup, hp]
      · have hkb : (k == p.1) = false := by simp [hp]
        simp [List.lookup, hkb, ih]

theorem lookup_map_set_other {β : Type} (m : List (String × β)) (k g : String) (v : β)
    (hg : g ≠ k) :
    List.lookup g (m.map (fun p => if p.1 == k then (k, v) else p)) = List.lookup g m := by
  induction m with
  | nil => simp
  | cons p t ih =>
      simp only [List.map_cons]
      cases hb : (p.1 == k) with
      | true =>
          have hp : p.1 = k := by simpa using hb
          have hgb : (g == k) = false := by simp [hg]
          have hgp : (g == p.1) = false := by rw [hp]; exact hgb
          simp only [if_true, List.lookup, hgb, hgp]
          simp only [List.lookup] at ih
          exact ih
      | false =>
          simp only [Bool.false_eq_true, if_false, List.lookup]
          cases hgp : (g == p.1) with
          | true => rfl
          | false => exact ih

theorem lookup_append_other {β : Type} (m : List (String × β)) (k g : String) (v : β)
    (hg : g ≠ k) :
    List.lookup g (m ++ [(k, v)]) = List.lookup g m := by
  induction m with
  | nil =>
      have hgb : (g == k) = false := by simp [hg]
      simp [List.lookup, hgb]
  | cons p t ih =>
      by_cases hp : g = p.1
      · simp [List.lookup, hp]
      · have hgb : (g == p.1) = false := by simp [hp]
        simp [List.lookup, hgb, ih]

theorem lookup_dictSet_self (m : Dict) (k v : String) :
    List.lookup k (dictSet m k v) = some v := by
  unfold dictSet
  split
  · exact lookup_map_set_self m k v (by assumption)
  · rename_i h
    have hnone : List.lookup k m = none := by
      simp only [Bool.not_eq_true, List.any_eq_false] at h
      induction m with
      | nil => rfl
      | cons p t ih =>
          have hpb : (k == p.1) = false := by
            have := h p (by simp)
            simp only [beq_eq_false_iff_ne] at this ⊢
            exact fun hk => this (hk ▸ rfl)
          simp only [List.lookup, hpb]
          exact ih (fun x hx => h x (by simp [hx]))
    rw [lookup_append_set, hnone]
    rfl

theorem cacheGet_cacheSet_self (c : Cache) (lang key v : String) :
    cacheGet (cacheSet c lang key v) lang key = some v := by
  unfold cacheGet cacheSet
  split
  · rw [lookup_map_set_self c lang _ (by assumption)]
    simp [lookup_dictSet_self]
  · rename_i h
    have hnone : List.lookup lang c = none := by
      simp only [Bool.not_eq_true, List.any_eq_false] at h
      induction c with
      | nil => rfl
      | cons p t ih =>
          have hpb : (lang == p.1) = false := by
            have := h p (by simp)
            simp only [beq_eq_false_iff_ne] at this ⊢
            exact fun hk => this (hk ▸ rfl)
          simp only [List.lookup, hpb]
          exact ih (fun x hx => h x (by simp [hx]))
    rw [lookup_append_set, hnone]
    simp [lookup_dictSet_self]

/-! ## Classification lemmas -/

theorem transient_not_fatal {e : PErr} (h : isTransientFailure e = true) :
    isFatalFailure e = false := by
  unfold isTransientFailure at h
  simp only [Bool.and_eq_true, Bool.not_eq_true'] at h
  exact h.1

theorem classify_transient {e : PErr} (h : isTransientFailure e = true) :
    (isFatalFailure e || !isTransientFailure e) = false := by
  simp [transient_not_fatal h, h]

theorem classify_timeout {e : PErr} (h : e.isTimeoutError = true) :
    (isFatalFailure e || !isTransientFailure e) = true := by
  have hf : isFatalFailure e = true := by
    unfold isFatalFailure isTimeoutFailure
    simp [h]
  simp [hf]

theorem backoffFor_eq_min (i : Nat) :
    backoffFor (i + 1) = min (BASE_BACKOFF_SECONDS * 2 ^ i) MAX_BACKOFF_SECONDS := by
  unfold backoffFor
  simp only [Nat.add_sub_cancel]
  rw [min_def]
  split <;> split <;> first | rfl | (rename_i h1 h2; exfalso; first | exact h1 (le_of_not_lt (by simpa using h2)) | linarith)

/-! ## `translate_text` unfolding lemmas -/

theorem translate_text_cache_hit (key text lang : String) (provider : Provider)
    (stop : StopOracle) (poll : Nat) (cache : Cache) (v : String)
    (h : cacheGet cache lang key = some v) :
    translate_text key text lang provider stop poll cache = ⟨some v, cache, 0, [], poll, false⟩ := by
  unfold translate_text
  rw [h]

theorem translate_text_eq_loop (key text lang : String) (provider : Provider)
    (stop : StopOracle) (poll : Nat) (cache : Cache)
    (hget : cacheGet cache lang key = none)
    (hne : (text == "" || pyStrip text == "") = false) :
    translate_text key text lang provider stop poll cache =
      ttLoop key text lang provider stop 1 MAX_TRANSIENT_ATTEMPTS poll 0 [] cache := by
  unfold translate_text
  rw [hget]
  simp [hne]

/-- Started with the full attempt budget and a stop flag that stays false,
the retry loop always terminates in a non-cancelled state whose result `r`
has just been written into the cache under `(lang, key)`. -/
theorem ttLoop_ok (key text lang : String) (provider : Provider) :
    ∀ (remaining attempt poll calls : Nat) (backoffs : List ℚ) (cache : Cache),
      attempt + remaining = MAX_TRANSIENT_ATTEMPTS + 1 → 1 ≤ remaining →
      ∃ r calls' backoffs' poll',
        ttLoop key text lang provider (fun _ => false) attempt remaining poll calls backoffs cache =
          ⟨some r, cacheSet cache lang key r, calls', backoffs', poll', false⟩ := by
  intro remaining
  induction remaining with
  | zero => intro _ _ _ _ _ _ h1; omega
  | succ n ih =>
      intro attempt poll calls backoffs cache hsum _
      simp only [ttLoop, Bool.false_eq_true, if_false]
      cases hp : provider attempt with
      | ok o =>
          cases o with
          | some s => exact ⟨s, _, _, _, rfl⟩
          | none => exact ⟨text, _, _, _, rfl⟩
      | error e =>
          by_cases hc : (isFatalFailure e || !isTransientFailure e) = true
          · simp only [hc, if_true]
            exact ⟨text, _, _, _, rfl⟩
          · simp only [Bool.not_eq_true] at hc
            simp only [hc, Bool.false_eq_true, if_false]
            by_cases ha : attempt < MAX_TRANSIENT_ATTEMPTS
            · simp only [ha, if_true]
              exact ih (attempt + 1) (poll + 4) (calls + 1)
                (backoffs ++ [backoffFor attempt]) cache (by omega)
                (by simp only [MAX_TRANSIENT_ATTEMPTS] at ha hsum; omega)
            · simp only [ha, if_false]
              exact ⟨text, _, _, _, rfl⟩

/-! ## Claim theorems -/

/-- C9: `resolve_effective_language` is total: inputs with a fallback-table
entry map to `(mapped value, true)`, every other input maps to
`(itself, false)`; it is a pure function of its argument. -/
theorem resolve_effective_language_total (raw : String) :
    (∀ eff, List.lookup raw LANGUAGE_FALLBACKS = some eff →
      resolve_effective_language raw = (eff, true)) ∧
    (List.lookup raw LANGUAGE_FALLBACKS = none →
      resolve_effective_language raw = (raw, false)) := by
  constructor
  · intro eff h
    unfold resolve_effective_language
    rw [h]
  · intro h
    unfold resolve_effective_language
    rw [h]

theorem resolve_effective_language_total_witness :
    resolve_effective_language "kl" = ("da", true) ∧
    resolve_effective_language "fy" = ("nl", true) ∧
    resolve_effective_language "lb" = ("de", true) ∧
    resolve_effective_language "xx" = ("xx", false) :=
  ⟨(resolve_effective_language_total "kl").1 "da" (by decide),
   (resolve_effective_language_total "fy").1 "nl" (by decide),
   (resolve_effective_language_total "lb").1 "de" (by decide),
   (resolve_effective_language_total "xx").2 (by decide)⟩

/-- C1: under any physically possible sequence of clock reads, every
completed reservation blocks until at least `minInterval = 1/REQUESTS_PER_SECOND`
seconds past the previous stamp and then stamps the shared timestamp (the
whole check-sleep-stamp sequence runs under `rate_lock`, so the embedding is
the sequential fold `runReservations`); the stamp sequence is therefore
already sorted and its consecutive gaps — indeed all pairwise gaps — are at
least `minInterval`. -/
theorem rate_limiter_min_gap (last : ℚ) (reads : List (ℚ × ℚ))
    (hv : validReads last reads = true) :
    List.Chain (fun a b => a + minInterval ≤ b) last (runReservations last reads) ∧
    (runReservations last reads).Pairwise (fun a b => a + minInterval ≤ b) := by
  have hmi : minInterval = 5 := by norm_num [minInterval, REQUESTS_PER_SECOND]
  letI : IsTrans ℚ (fun a b => a + minInterval ≤ b) :=
    ⟨fun a b c h1 h2 => by
      rw [hmi] at h1 h2 ⊢
      linarith⟩
  have hchain : ∀ (reads : List (ℚ × ℚ)) (last : ℚ), validReads last reads = true →
      List.Chain (fun a b => a + minInterval ≤ b) last (runReservations last reads) := by
    intro reads
    induction reads with
    | nil => intro last _; exact List.Chain.nil
    | cons p rest ih =>
        intro last hv
        obtain ⟨now, stamp⟩ := p
        simp only [validReads, Bool.and_eq_true, decide_eq_true_eq] at hv
        obtain ⟨⟨hns, hsl⟩, hrest⟩ := hv
        refine List.Chain.cons ?_ (ih stamp hrest)
        by_cases hneed : 0 < minInterval - (now - last)
        · rw [if_pos hneed] at hsl
          simp only [decide_eq_true_eq] at hsl
          linarith
        · simp only [not_lt] at hneed
          linarith
  exact ⟨hchain reads last hv,
    (List.chain_iff_pairwise.mp (hchain reads last hv)).of_cons⟩

theorem rate_limiter_min_gap_witness :
    validReads 0 [(6, 6), (7, 11)] = true ∧
    List.Chain (fun a b => a + minInterval ≤ b) 0 (runReservations 0 [(6, 6), (7, 11)]) ∧
    (runReservations 0 [(6, 6), (7, 11)]).Pairwise (fun a b => a + minInterval ≤ b) := by
  have hv : validReads 0 [(6, 6), (7, 11)] = true := by
    simp only [validReads, minInterval, REQUESTS_PER_SECOND]
    norm_num
  exact ⟨hv, rate_limiter_min_gap 0 [(6, 6), (7, 11)] hv⟩

/-- C2: the timeout-bounded call returns control within `timeoutSeconds`
in every case — the wrapped call's own result when it completes inside the
deadline, and `TimeoutError` exactly at the deadline when it is still
running, even when it never returns (the timeout path shuts the executor
down with `wait=False`, so nothing blocks on the hung thread). -/
theorem call_with_timeout_contract (fb : FnBehavior) (timeout : ℚ) :
    (safe_translate_with_timeout false fb timeout).2 ≤ (timeout : WithTop ℚ) ∧
    (∀ t out, fb = .completes t out → t ≤ timeout →
      (safe_translate_with_timeout false fb timeout).1 =
        (match out with
         | .ok s => CallOutcome.ok s
         | .error e => CallOutcome.raised e) ∧
      (safe_translate_with_timeout false fb timeout).2 = (t : WithTop ℚ)) ∧
    (fb = .hang →
      (safe_translate_with_timeout false fb timeout).1 = .timedOutErr ∧
      (safe_translate_with_timeout false fb timeout).2 = (timeout : WithTop ℚ)) ∧
    (∀ t out, fb = .completes t out → timeout < t →
      (safe_translate_with_timeout false fb timeout).1 = .timedOutErr ∧
      (safe_translate_with_timeout false fb timeout).2 = (timeout : WithTop ℚ)) := by
  refine ⟨?_, ?_, ?_, ?_⟩
  · cases fb with
    | hang => simp [safe_translate_with_timeout, shutdownDone]
    | completes t out =>
        by_cases ht : t ≤ timeout
        · simp only [safe_translate_with_timeout, Bool.false_eq_true, if_false, ht, if_true,
            shutdownDone, max_self]
          exact_mod_cast ht
        · simp [safe_translate_with_timeout, shutdownDone, ht]
  · intro t out hfb ht
    subst hfb
    simp [safe_translate_with_timeout, shutdownDone, ht]
  · intro hfb
    subst hfb
    simp [safe_translate_with_timeout, shutdownDone]
  · intro t out hfb ht
    subst hfb
    simp [safe_translate_with_timeout, shutdownDone, not_le.mpr ht]

theorem call_with_timeout_contract_witness :
    ((safe_translate_with_timeout false (.completes 2 (.ok "done")) 5).1 = CallOutcome.ok "done" ∧
     (safe_translate_with_timeout false (.completes 2 (.ok "done")) 5).2 = ((2 : ℚ) : WithTop ℚ)) ∧
    ((safe_translate_with_timeout false .hang 5).1 = CallOutcome.timedOutErr ∧
     (safe_translate_with_timeout false .hang 5).2 = ((5 : ℚ) : WithTop ℚ)) ∧
    ((safe_translate_with_timeout false (.completes 7 (.ok "late")) 5).1 = CallOutcome.timedOutErr ∧
     (safe_translate_with_timeout false (.completes 7 (.ok "late")) 5).2 = ((5 : ℚ) : WithTop ℚ)) :=
  ⟨(call_with_timeout_contract (.completes 2 (.ok "done")) 5).2.1 2 (.ok "done") rfl (by norm_num),
   (call_with_timeout_contract .hang 5).2.2.1 rfl,
   (call_with_timeout_contract (.completes 7 (.ok "late")) 5).2.2.2 7 (.ok "late") rfl (by norm_num)⟩

/-- C3: for a key not already cached (with a non-blank text, which is what
reaches the retry loop): when the provider fails with transient-pattern
errors on exactly the first `k < MAX_TRANSIENT_ATTEMPTS` attempts and then
succeeds, `translate_text` returns the successful value after exactly `k+1`
provider invocations, and the backoff slept before retry `i+1` is
`min(BASE_BACKOFF_SECONDS * 2^(i-1), MAX_BACKOFF_SECONDS)`; when the provider
raises a fatal-pattern error it is invoked exactly once and the original
source text is returned. -/
theorem retry_backoff_classifier (key text lang : String) (cache : Cache) (poll : Nat)
    (hget : cacheGet cache lang key = none)
    (hne : (text == "" || pyStrip text == "") = false) :
    (∀ (k : Nat) (provider : Provider) (s : String),
      k < MAX_TRANSIENT_ATTEMPTS →
      (∀ i, 1 ≤ i → i ≤ k → ∃ e, provider i = .error e ∧ isTransientFailure e = true) →
      provider (k + 1) = .ok (some s) →
      (translate_text key text lang provider (fun _ => false) poll cache).result = some s ∧
      (translate_text key text lang provider (fun _ => false) poll cache).calls = k + 1 ∧
      (translate_text key text lang provider (fun _ => false) poll cache).backoffs =
        (List.range k).map fun i => min (BASE_BACKOFF_SECONDS * 2 ^ i) MAX_BACKOFF_SECONDS) ∧
    (∀ (provider : Provider) (e : PErr),
      provider 1 = .error e → isFatalFailure e = true →
      (translate_text key text lang provider (fun _ => false) poll cache).result = some text ∧
      (translate_text key text lang provider (fun _ => false) poll cache).calls = 1) := by
  constructor
  · intro k provider s hk htr hsucc
    rw [translate_text_eq_loop key text lang provider (fun _ => false) poll cache hget hne]
    simp only [MAX_TRANSIENT_ATTEMPTS] at hk ⊢
    interval_cases k
    · simp [ttLoop, hsucc]
    · obtain ⟨e1, he1, ht1⟩ := htr 1 (by omega) (by omega)
      simp [ttLoop, he1, classify_transient ht1, MAX_TRANSIENT_ATTEMPTS, hsucc,
        backoffFor_eq_min, List.range_succ]
    · obtain ⟨e1, he1, ht1⟩ := htr 1 (by omega) (by omega)
      obtain ⟨e2, he2, ht2⟩ := htr 2 (by omega) (by omega)
      simp [ttLoop, he1, classify_transient ht1, he2, classify_transient ht2,
        MAX_TRANSIENT_ATTEMPTS, hsucc, backoffFor_eq_min, List.range_succ]
    · obtain ⟨e1, he1, ht1⟩ := htr 1 (by omega) (by omega)
      obtain ⟨e2, he2, ht2⟩ := htr 2 (by omega) (by omega)
      obtain ⟨e3, he3, ht3⟩ := htr 3 (by omega) (by omega)
      simp [ttLoop, he1, classify_transient ht1, he2, classify_transient ht2,
        he3, classify_transient ht3, MAX_TRANSIENT_ATTEMPTS, hsucc,
        backoffFor_eq_min, List.range_succ]
  · intro provider e he hf
    rw [translate_text_eq_loop key text lang provider (fun _ => false) poll cache hget hne]
    simp [MAX_TRANSIENT_ATTEMPTS, ttLoop, he, hf]

theorem retry_backoff_classifier_witness :
    ((translate_text "hello" "Hello" "es" provTransientTwice (fun _ => false) 0 []).result =
        some "Hola" ∧
      (translate_text "hello" "Hello" "es" provTransientTwice (fun _ => false) 0 []).calls =
        2 + 1 ∧
      (translate_text "hello" "Hello" "es" provTransientTwice (fun _ => false) 0 []).backoffs =
        (List.range 2).map fun i => min (BASE_BACKOFF_SECONDS * 2 ^ i) MAX_BACKOFF_SECONDS) ∧
    ((translate_text "hello" "Hello" "xx" provFatal (fun _ => false) 0 []).result =
        some "Hello" ∧
      (translate_text "hello" "Hello" "xx" provFatal (fun _ => false) 0 []).calls = 1) :=
  ⟨(retry_backoff_classifier "hello" "Hello" "es" [] 0 (by decide) (by decide)).1
      2 provTransientTwice "Hola" (by decide)
      (fun i h1 h2 => ⟨⟨false, "HTTP Error 429: Too Many Requests"⟩,
        by interval_cases i <;> rfl, by decide⟩)
      rfl,
   (retry_backoff_classifier "hello" "Hello" "xx" [] 0 (by decide) (by decide)).2
      provFatal ⟨false, "unsupported language"⟩ rfl (by decide)⟩

/-- C4: a hard timeout of the provider call is always classified as fatal:
whatever the key and whatever the attempt number at which the `TimeoutError`
occurs (after any run of transient failures), `translate_text` makes no
further invocation, sleeps no further backoff, returns the original
(untranslated) text and caches that value for the key. -/
theorem timeout_always_fatal (key text lang : String) (cache : Cache) (poll : Nat)
    (hget : cacheGet cache lang key = none)
    (hne : (text == "" || pyStrip text == "") = false)
    (j : Nat) (provider : Provider) (e : PErr)
    (hj : j < MAX_TRANSIENT_ATTEMPTS)
    (htr : ∀ i, 1 ≤ i → i ≤ j → ∃ e', provider i = .error e' ∧ isTransientFailure e' = true)
    (hto : provider (j + 1) = .error e)
    (htoE : e.isTimeoutError = true) :
    (translate_text key text lang provider (fun _ => false) poll cache).result = some text ∧
    (translate_text key text lang provider (fun _ => false) poll cache).calls = j + 1 ∧
    (translate_text key text lang provider (fun _ => false) poll cache).backoffs.length = j ∧
    cacheGet (translate_text key text lang provider (fun _ => false) poll cache).cache
      lang key = some text ∧
    (translate_text key text lang provider (fun _ => false) poll cache).cancelled = false := by
  rw [translate_text_eq_loop key text lang provider (fun _ => false) poll cache hget hne]
  simp only [MAX_TRANSIENT_ATTEMPTS] at hj ⊢
  interval_cases j
  · simp [ttLoop, hto, classify_timeout htoE, cacheGet_cacheSet_self]
  · obtain ⟨e1, he1, ht1⟩ := htr 1 (by omega) (by omega)
    simp [ttLoop, he1, classify_transient ht1, MAX_TRANSIENT_ATTEMPTS, hto,
      classify_timeout htoE, cacheGet_cacheSet_self]
  · obtain ⟨e1, he1, ht1⟩ := htr 1 (by omega) (by omega)
    obtain ⟨e2, he2, ht2⟩ := htr 2 (by omega) (by omega)
    simp [ttLoop, he1, classify_transient ht1, he2, classify_transient ht2,
      MAX_TRANSIENT_ATTEMPTS, hto, classify_timeout htoE, cacheGet_cacheSet_self]
  · obtain ⟨e1, he1, ht1⟩ := htr 1 (by omega) (by omega)
    obtain ⟨e2, he2, ht2⟩ := htr 2 (by omega) (by omega)
    obtain ⟨e3, he3, ht3⟩ := htr 3 (by omega) (by omega)
    simp [ttLoop, he1, classify_transient ht1, he2, classify_transient ht2,
      he3, classify_transient ht3, MAX_TRANSIENT_ATTEMPTS, hto,
      classify_timeout htoE, cacheGet_cacheSet_self]

theorem timeout_always_fatal_witness :
    (translate_text "hello" "Hello" "es" provThenTimeout (fun _ => false) 0 []).result =
      some "Hello" ∧
    (translate_text "hello" "Hello" "es" provThenTimeout (fun _ => false) 0 []).calls = 1 + 1 ∧
    (translate_text "hello" "Hello" "es" provThenTimeout (fun _ => false) 0 []).backoffs.length =
      1 ∧
    cacheGet (translate_text "hello" "Hello" "es" provThenTimeout (fun _ => false) 0 []).cache
      "es" "hello" = some "Hello" ∧
    (translate_text "hello" "Hello" "es" provThenTimeout (fun _ => false) 0 []).cancelled =
      false :=
  timeout_always_fatal "hello" "Hello" "es" [] 0 (by decide) (by decide) 1 provThenTimeout
    ⟨true, "Translation call exceeded 5.0s timeout"⟩ (by decide)
    (fun i h1 h2 => ⟨⟨false, "HTTP Error 429: Too Many Requests"⟩,
      by interval_cases i <;> rfl, by decide⟩)
    rfl rfl

/-- C6: `translate_text` is idempotent per `(effective language, key)`.  The
cache lookup precedes any provider call: on a hit the cached value is
returned unchanged with zero invocations and no state change.  On a miss
with non-blank text, the returned value is written into the cache under the
pair, and any subsequent call for the same pair — whatever provider or stop
flag it sees — returns that cached value unchanged with zero provider
invocations. -/
theorem cache_idempotence (key text lang : String) (poll : Nat) (cache : Cache) :
    (∀ (provider : Provider) (stop : StopOracle) (v : String),
      cacheGet cache lang key = some v →
      translate_text key text lang provider stop poll cache =
        ⟨some v, cache, 0, [], poll, false⟩) ∧
    (cacheGet cache lang key = none →
      (text == "" || pyStrip text == "") = false →
      ∀ provider : Provider, ∃ r,
        (translate_text key text lang provider (fun _ => false) poll cache).cancelled = false ∧
        (translate_text key text lang provider (fun _ => false) poll cache).result = some r ∧
        cacheGet (translate_text key text lang provider (fun _ => false) poll cache).cache
          lang key = some r ∧
        (∀ (provider2 : Provider) (stop2 : StopOracle) (poll2 : Nat),
          translate_text key text lang provider2 stop2 poll2
              (translate_text key text lang provider (fun _ => false) poll cache).cache =
            ⟨some r,
              (translate_text key text lang provider (fun _ => false) poll cache).cache,
              0, [], poll2, false⟩)) := by
  constructor
  · intro provider stop v h
    exact translate_text_cache_hit key text lang provider stop poll cache v h
  · intro hget hne provider
    obtain ⟨r, calls', backoffs', poll', hloop⟩ :=
      ttLoop_ok key text lang provider MAX_TRANSIENT_ATTEMPTS 1 poll 0 [] cache
        (by simp [MAX_TRANSIENT_ATTEMPTS]) (by simp [MAX_TRANSIENT_ATTEMPTS])
    have htt : translate_text key text lang provider (fun _ => false) poll cache =
        ⟨some r, cacheSet cache lang key r, calls', backoffs', poll', false⟩ := by
      rw [translate_text_eq_loop key text lang provider (fun _ => false) poll cache hget hne]
      exact hloop
    refine ⟨r, ?_, ?_, ?_, ?_⟩
    · rw [htt]
    · rw [htt]
    · rw [htt]
      exact cacheGet_cacheSet_self cache lang key r
    · intro provider2 stop2 poll2
      rw [htt]
      exact translate_text_cache_hit key text lang provider2 stop2 poll2 _ r
        (cacheGet_cacheSet_self cache lang key r)

theorem cache_idempotence_witness :
    (translate_text "hello" "Hello" "es" provFatal (fun _ => false) 7
        [("es", [("hello", "Hola")])] =
      ⟨some "Hola", [("es", [("hello", "Hola")])], 0, [], 7, false⟩) ∧
    (∃ r,
      (translate_text "hello" "Hello" "es" provTransientTwice (fun _ => false) 0 []).cancelled =
        false ∧
      (translate_text "hello" "Hello" "es" provTransientTwice (fun _ => false) 0 []).result =
        some r ∧
      cacheGet (translate_text "hello" "Hello" "es" provTransientTwice
          (fun _ => false) 0 []).cache "es" "hello" = some r ∧
      (∀ (provider2 : Provider) (stop2 : StopOracle) (poll2 : Nat),
        translate_text "hello" "Hello" "es" provider2 stop2 poll2
            (translate_text "hello" "Hello" "es" provTransientTwice
              (fun _ => false) 0 []).cache =
          ⟨some r,
            (translate_text "hello" "Hello" "es" provTransientTwice
              (fun _ => false) 0 []).cache,
            0, [], poll2, false⟩)) :=
  ⟨(cache_idempotence "hello" "Hello" "es" 7 [("es", [("hello", "Hola")])]).1
      provFatal (fun _ => false) "Hola" (by decide),
   (cache_idempotence "hello" "Hello" "es" 0 []).2 (by decide) (by decide) provTransientTwice⟩

/-! ## Filesystem lemmas -/

theorem lookup_eq_none_of_any_eq_false {β : Type} (m : List (String × β)) (k : String)
    (h : m.any (fun p => p.1 == k) = false) : List.lookup k m = none := by
  induction m with
  | nil => rfl
  | cons p t ih =>
      simp only [List.any_cons, Bool.or_eq_false_iff] at h
      have hkb : (k == p.1) = false := by
        simp only [beq_eq_false_iff_ne] at h ⊢
        exact fun hk => h.1 hk.symm
      simp only [List.lookup, hkb]
      exact ih (by simpa using h.2)

theorem lookup_setFile_self (fs : FS) (name : String) (content : Dict) :
    List.lookup name (setFile fs name content).files = some content := by
  unfold setFile
  split
  · exact lookup_map_set_self fs.files name content (by assumption)
  · rename_i h
    simp only [Bool.not_eq_true] at h
    rw [lookup_append_set, lookup_eq_none_of_any_eq_false fs.files name h]
    rfl

theorem lookup_setFile_other (fs : FS) (name g : String) (content : Dict) (hg : g ≠ name) :
    List.lookup g (setFile fs name content).files = List.lookup g fs.files := by
  unfold setFile
  split
  · exact lookup_map_set_other fs.files name g content hg
  · exact lookup_append_other fs.files name g content hg

theorem addDone_files (fs : FS) (name : String) : (addDone fs name).files = fs.files := rfl

theorem mem_addDone (fs : FS) (name g : String) :
    g ∈ (addDone fs name).done ↔ g ∈ fs.done ∨ g = name := by
  unfold addDone
  split
  · rename_i h
    have hname : name ∈ fs.done := List.elem_iff.mp h
    constructor
    · exact Or.inl
    · rintro (hg | rfl)
      · exact hg
      · exact hname
  · simp [List.mem_append]

theorem mem_addDone_self (fs : FS) (name : String) : name ∈ (addDone fs name).done :=
  (mem_addDone fs name name).mpr (Or.inr rfl)

theorem mem_addDone_of_mem (fs : FS) (name g : String) (h : g ∈ fs.done) :
    g ∈ (addDone fs name).done :=
  (mem_addDone fs name g).mpr (Or.inl h)

theorem lookup_isSome_of_mem_keys {β : Type} (m : List (String × β)) (g : String)
    (h : g ∈ m.map Prod.fst) : ∃ d, List.lookup g m = some d := by
  induction m with
  | nil => simp at h
  | cons p t ih =>
      by_cases hg : g = p.1
      · have hgb : (g == p.1) = true := by simp [hg]
        exact ⟨p.2, by simp [List.lookup, hgb]⟩
      · have hgb : (g == p.1) = false := by simp [hg]
        have hmem : g ∈ t.map Prod.fst := by
          simp only [List.map_cons, List.mem_cons] at h
          exact h.resolve_left hg
        obtain ⟨d, hd⟩ := ih hmem
        exact ⟨d, by simp [List.lookup, hgb, hd]⟩

theorem find?_eq_head?_filter {α : Type} (p : α → Bool) (l : List α) :
    l.find? p = (l.filter p).head? := by
  induction l with
  | nil => rfl
  | cons a t ih =>
      rw [List.find?_cons, List.filter_cons]
      cases hp : p a with
      | true => rfl
      | false => exact ih

/-! ## `process_translation_file` structural lemmas -/

/-- A cancelled invocation leaves the filesystem exactly as it found it:
every poll point precedes both the output-file write and the `.done`-marker
write of the invocation. -/
theorem process_cancelled_fs_eq (filename : String) (source : Dict)
    (provider : String → Provider) (stop : StopOracle) (fs : FS) (cache : Cache) (poll : Nat)
    (h : (process_translation_file filename source provider stop fs cache poll).cancelled =
      true) :
    (process_translation_file filename source provider stop fs cache poll).fs = fs := by
  revert h
  unfold process_translation_file
  split
  · intro _; rfl
  · dsimp only
    split
    · intro h; simp at h
    · split
      · split <;> (intro h; simp at h)
      · split
        · split <;> (intro h; simp at h)
        · split
          · intro h; simp at h
          · split
            · intro _; rfl
            · intro h; simp at h

/-- Processing one file never disturbs the content or the marker of a file
that already has its `.done` marker (completed files are skipped, and every
write of an invocation targets the invocation's own file only, which cannot
carry a marker when the writing branches run). -/
theorem process_preserves_done (filename : String) (source : Dict)
    (provider : String → Provider) (stop : StopOracle) (fs : FS) (cache : Cache) (poll : Nat)
    (g : String) (hg : g ∈ fs.done) :
    List.lookup g
        (process_translation_file filename source provider stop fs cache poll).fs.files =
      List.lookup g fs.files ∧
    g ∈ (process_translation_file filename source provider stop fs cache poll).fs.done := by
  unfold process_translation_file
  split
  · exact ⟨rfl, hg⟩
  · dsimp only
    split
    · exact ⟨rfl, hg⟩
    · rename_i hdone
      have hne : g ≠ filename := by
        rintro rfl
        exact hdone (List.elem_iff.mpr hg)
      split
      · split
        · exact ⟨lookup_setFile_other fs filename g _ hne, mem_addDone_of_mem _ _ _ hg⟩
        · exact ⟨rfl, hg⟩
      · split
        · split
          · exact ⟨lookup_setFile_other fs filename g _ hne, mem_addDone_of_mem _ _ _ hg⟩
          · exact ⟨rfl, hg⟩
        · split
          · exact ⟨rfl, mem_addDone_of_mem _ _ _ hg⟩
          · split
            · exact ⟨rfl, hg⟩
            · exact ⟨lookup_setFile_other fs filename g _ hne, mem_addDone_of_mem _ _ _ hg⟩

/-- The only `.done` marker an invocation can create is its own file's. -/
theorem process_done_subset (filename : String) (source : Dict)
    (provider : String → Provider) (stop : StopOracle) (fs : FS) (cache : Cache) (poll : Nat)
    (g : String)
    (hg : g ∈ (process_translation_file filename source provider stop fs cache poll).fs.done) :
    g ∈ fs.done ∨ g = filename := by
  unfold process_translation_file at hg
  split at hg
  · exact Or.inl hg
  · dsimp only at hg
    split at hg
    · exact Or.inl hg
    · split at hg
      · split at hg
        · exact (mem_addDone _ _ _).mp hg
        · exact Or.inl hg
      · split at hg
        · split at hg
          · exact (mem_addDone _ _ _).mp hg
          · exact Or.inl hg
        · split at hg
          · exact (mem_addDone _ _ _).mp hg
          · split at hg
            · exact Or.inl hg
            · exact (mem_addDone _ _ _).mp hg

theorem runFiles_preserves (source : Dict) (provider : String → Provider)
    (stop : StopOracle) :
    ∀ (files : List String) (fs : FS) (cache : Cache) (poll : Nat) (g : String),
      g ∈ fs.done →
      List.lookup g (runFiles source provider stop files fs cache poll).1.files =
        List.lookup g fs.files ∧
      g ∈ (runFiles source provider stop files fs cache poll).1.done := by
  intro files
  induction files with
  | nil => exact fun fs cache poll g hg => ⟨rfl, hg⟩
  | cons f rest ih =>
      intro fs cache poll g hg
      simp only [runFiles]
      split
      · exact process_preserves_done f source provider stop fs cache poll g hg
      · have h1 := process_preserves_done f source provider stop fs cache poll g hg
        have h2 := ih (process_translation_file f source provider stop fs cache poll).fs
          (process_translation_file f source provider stop fs cache poll).cache
          (process_translation_file f source provider stop fs cache poll).poll g h1.2
        exact ⟨h2.1.trans h1.1, h2.2⟩

theorem runFiles_cancelled_mem (source : Dict) (provider : String → Provider)
    (stop : StopOracle) :
    ∀ (files : List String) (fs : FS) (cache : Cache) (poll : Nat) (f : String),
      (runFiles source provider stop files fs cache poll).2.2.2 = some f → f ∈ files := by
  intro files
  induction files with
  | nil => intro fs cache poll f h; simp [runFiles] at h
  | cons f₀ rest ih =>
      intro fs cache poll f h
      simp only [runFiles] at h
      split at h
      · simp only [Option.some.injEq] at h
        simp [h]
      · exact List.mem_cons_of_mem f₀ (ih _ _ _ f h)

theorem runFiles_cancelled_not_done (source : Dict) (provider : String → Provider)
    (stop : StopOracle) :
    ∀ (files : List String), files.Nodup →
      ∀ (fs : FS) (cache : Cache) (poll : Nat) (f : String),
        (runFiles source provider stop files fs cache poll).2.2.2 = some f →
        f ∉ fs.done →
        f ∉ (runFiles source provider stop files fs cache poll).1.done := by
  intro files
  induction files with
  | nil => intro _ fs cache poll f h; simp [runFiles] at h
  | cons f₀ rest ih =>
      intro hnd fs cache poll f h hf
      simp only [runFiles] at h ⊢
      split at h
      · rename_i hc
        simp only [if_pos hc]
        rw [process_cancelled_fs_eq f₀ source provider stop fs cache poll hc]
        exact hf
      · rename_i hc
        simp only [if_neg hc]
        have hmem : f ∈ rest := runFiles_cancelled_mem source provider stop rest _ _ _ f h
        have hne : f ≠ f₀ := by
          rintro rfl
          exact (List.nodup_cons.mp hnd).1 hmem
        refine ih (List.nodup_cons.mp hnd).2 _ _ _ f h ?_
        intro habs
        rcases process_done_subset f₀ source provider stop fs cache poll f habs with h1 | h1
        · exact hf h1
        · exact hne h1

/-- C5: cancellation is a clean unwind.  Whenever an invocation of
`process_translation_file` observes the stop flag at one of its poll points
and unwinds (`cancelled = true`), it leaves the filesystem exactly as it
found it — in particular neither its output file nor its Done Marker is
written.  Across a run: every file holding a Done Marker keeps both its
content and its marker through the rest of the run (the statement is
universal in the starting state, so it applies at any intermediate point of
a run, covering every file completed before the cancellation), and the file
whose processing was cancelled never ends up with a Done Marker. -/
theorem cancellation_no_partial_writes (source : Dict) (provider : String → Provider)
    (stop : StopOracle) (files : List String) (fs : FS) (cache : Cache) (poll : Nat) :
    (∀ (filename : String) (fs' : FS) (cache' : Cache) (poll' : Nat),
      stop poll' = true →
      (process_translation_file filename source provider stop fs' cache' poll').cancelled =
        true) ∧
    (∀ (filename : String) (fs' : FS) (cache' : Cache) (poll' : Nat),
      (process_translation_file filename source provider stop fs' cache' poll').cancelled =
        true →
      (process_translation_file filename source provider stop fs' cache' poll').fs = fs') ∧
    (∀ g, g ∈ fs.done →
      List.lookup g (runFiles source provider stop files fs cache poll).1.files =
        List.lookup g fs.files ∧
      g ∈ (runFiles source provider stop files fs cache poll).1.done) ∧
    (files.Nodup → ∀ f,
      (runFiles source provider stop files fs cache poll).2.2.2 = some f →
      f ∉ fs.done →
      f ∉ (runFiles source provider stop files fs cache poll).1.done) :=
  ⟨fun filename fs' cache' poll' h => by
      unfold process_translation_file
      rw [if_pos h],
   fun filename fs' cache' poll' h =>
      process_cancelled_fs_eq filename source provider stop fs' cache' poll' h,
   fun g hg => runFiles_preserves source provider stop files fs cache poll g hg,
   fun hnd f hcf hf =>
      runFiles_cancelled_not_done source provider stop files hnd fs cache poll f hcf hf⟩

theorem cancellation_no_partial_writes_witness :
    (process_translation_file "es_MX.json" [("hello", "Hello")] (fun _ => provFatal)
        (fun _ => true) fsSorted [] 0).cancelled = true ∧
    (process_translation_file "es_MX.json" [("hello", "Hello")] (fun _ => provFatal)
        (fun _ => true) fsSorted [] 0).fs = fsSorted ∧
    (List.lookup "es_ES.json"
        (runFiles [("hello", "Hello")] (fun _ => provFatal) (fun _ => true)
          ["es_MX.json"] fsSorted [] 0).1.files =
      List.lookup "es_ES.json" fsSorted.files ∧
      "es_ES.json" ∈ (runFiles [("hello", "Hello")] (fun _ => provFatal) (fun _ => true)
        ["es_MX.json"] fsSorted [] 0).1.done) ∧
    "es_MX.json" ∉ (runFiles [("hello", "Hello")] (fun _ => provFatal) (fun _ => true)
      ["es_MX.json"] fsSorted [] 0).1.done :=
  ⟨(cancellation_no_partial_writes [("hello", "Hello")] (fun _ => provFatal) (fun _ => true)
      ["es_MX.json"] fsSorted [] 0).1 "es_MX.json" fsSorted [] 0 rfl,
   (cancellation_no_partial_writes [("hello", "Hello")] (fun _ => provFatal) (fun _ => true)
      ["es_MX.json"] fsSorted [] 0).2.1 "es_MX.json" fsSorted [] 0 (by decide),
   (cancellation_no_partial_writes [("hello", "Hello")] (fun _ => provFatal) (fun _ => true)
      ["es_MX.json"] fsSorted [] 0).2.2.1 "es_ES.json" (by decide),
   (cancellation_no_partial_writes [("hello", "Hello")] (fun _ => provFatal) (fun _ => true)
      ["es_MX.json"] fsSorted [] 0).2.2.2 (by decide) "es_MX.json" (by decide) (by decide)⟩

/-- C7: when some other listed `.json` file shares the effective language of
the file being processed and carries a Done Marker, processing the file
clones the selected donor's parsed contents into it (the program always
serialises catalogs with the single deterministic `json.dump` form, so equal
contents mean byte-identical files), writes the file's Done Marker, and
never invokes the translation provider. -/
theorem reference_propagation_clones_donor (source : Dict) (provider : String → Provider)
    (stop : StopOracle) (filename : String) (fs : FS) (cache : Cache) (poll : Nat)
    (hstop : stop poll = false)
    (hnotdone : fs.done.contains filename = false)
    (hraw : (get_target_language filename == "en") = false)
    (hdonor : ∃ g ∈ fs.files.map Prod.fst,
      isDonorFor fs filename
        ((resolve_effective_language (get_target_language filename)).1) g = true) :
    ∃ donor,
      isDonorFor fs filename
        ((resolve_effective_language (get_target_language filename)).1) donor = true ∧
      List.lookup filename
          (process_translation_file filename source provider stop fs cache poll).fs.files =
        List.lookup donor fs.files ∧
      filename ∈ (process_translation_file filename source provider stop fs cache poll).fs.done ∧
      (process_translation_file filename source provider stop fs cache poll).calls = 0 ∧
      (process_translation_file filename source provider stop fs cache poll).cancelled =
        false := by
  have hfind : (findReference fs filename
      ((resolve_effective_language (get_target_language filename)).1)).isSome := by
    unfold findReference
    rw [List.find?_isSome]
    obtain ⟨g, hmem, hdp⟩ := hdonor
    exact ⟨g, hmem, hdp⟩
  obtain ⟨donor, hfr⟩ := Option.isSome_iff_exists.mp hfind
  have hdp : isDonorFor fs filename
      ((resolve_effective_language (get_target_language filename)).1) donor = true :=
    List.find?_some hfr
  have hdmem : donor ∈ fs.files.map Prod.fst := List.mem_of_find?_eq_some hfr
  obtain ⟨d, hd⟩ := lookup_isSome_of_mem_keys fs.files donor hdmem
  have hproc : process_translation_file filename source provider stop fs cache poll =
      ⟨addDone (setFile fs filename d) filename, cache, 0, 1, poll + 1, false⟩ := by
    unfold process_translation_file
    rw [hstop]
    dsimp only
    rw [hnotdone, hraw]
    simp only [Bool.false_eq_true, if_false, hfr, hd]
  refine ⟨donor, hdp, ?_, ?_, ?_, ?_⟩
  · rw [hproc]
    show List.lookup filename (addDone (setFile fs filename d) filename).files = _
    rw [addDone_files, lookup_setFile_self, hd]
  · rw [hproc]
    exact mem_addDone_self _ _
  · rw [hproc]
  · rw [hproc]

theorem reference_propagation_clones_donor_witness :
    ∃ donor,
      isDonorFor fsSpanish "es_AR.json"
        ((resolve_effective_language (get_target_language "es_AR.json")).1) donor = true ∧
      List.lookup "es_AR.json"
          (process_translation_file "es_AR.json" [("hello", "Hello")] (fun _ => provFatal)
            (fun _ => false) fsSpanish [] 0).fs.files =
        List.lookup donor fsSpanish.files ∧
      "es_AR.json" ∈ (process_translation_file "es_AR.json" [("hello", "Hello")]
        (fun _ => provFatal) (fun _ => false) fsSpanish [] 0).fs.done ∧
      (process_translation_file "es_AR.json" [("hello", "Hello")] (fun _ => provFatal)
        (fun _ => false) fsSpanish [] 0).calls = 0 ∧
      (process_translation_file "es_AR.json" [("hello", "Hello")] (fun _ => provFatal)
        (fun _ => false) fsSpanish [] 0).cancelled = false :=
  reference_propagation_clones_donor [("hello", "Hello")] (fun _ => provFatal)
    (fun _ => false) "es_AR.json" fsSpanish [] 0 rfl (by decide) (by decide)
    ⟨"es_MX.json", by decide, by decide⟩

/-- C8 counterexample: the donor actually selected is the first match in the
directory-listing order of `os.listdir`, not the first alphabetically.  With
the listing `[es_MX.json, es_ES.json, es_AR.json]` (both variants completed,
contents differing), processing `es_AR.json` clones `es_MX.json` — the
listing-first donor — although the alphabetically first candidate is
`es_ES.json`. -/
theorem donor_choice_counterexample :
    findReference fsSpanish "es_AR.json"
        ((resolve_effective_language (get_target_language "es_AR.json")).1) =
      some "es_MX.json" ∧
    donorAlphabetical fsSpanish "es_AR.json"
        ((resolve_effective_language (get_target_language "es_AR.json")).1) =
      some "es_ES.json" ∧
    ("es_MX.json" : String) ≠ "es_ES.json" ∧
    List.lookup "es_AR.json"
        (process_translation_file "es_AR.json" [("hello", "Hello")] (fun _ => provFatal)
          (fun _ => false) fsSpanish [] 0).fs.files = some [("hello", "HolaMX")] ∧
    ([("hello", "HolaMX")] : Dict) ≠ [("hello", "HolaES")] := by
  refine ⟨by decide, by decide, by decide, ?_, by decide⟩
  decide

/-- C8 (amended): the donor selected for cloning is the first candidate
discovered in the directory-listing order; when the listing happens to be
alphabetically sorted this is the alphabetically first candidate. -/
theorem donor_first_in_listing_order (fs : FS) (filename eff : String) :
    findReference fs filename eff = (candidateDonors fs filename eff).head? ∧
    ((fs.files.map Prod.fst).Pairwise (fun a b => strLe a b = true) →
      findReference fs filename eff = donorAlphabetical fs filename eff) := by
  have h1 : findReference fs filename eff = (candidateDonors fs filename eff).head? :=
    find?_eq_head?_filter (isDonorFor fs filename eff) (fs.files.map Prod.fst)
  refine ⟨h1, fun hsorted => ?_⟩
  have hcand : (candidateDonors fs filename eff).Pairwise (fun a b => strLe a b = true) :=
    List.Pairwise.filter (isDonorFor fs filename eff) hsorted
  unfold donorAlphabetical
  rw [List.Sorted.insertionSort_eq hcand]
  exact h1

theorem donor_first_in_listing_order_witness :
    findReference fsSorted "es_MX.json"
        ((resolve_effective_language (get_target_language "es_MX.json")).1) =
      donorAlphabetical fsSorted "es_MX.json"
        ((resolve_effective_language (get_target_language "es_MX.json")).1) :=
  (donor_first_in_listing_order fsSorted "es_MX.json"
    ((resolve_effective_language (get_target_language "es_MX.json")).1)).2 (by decide)

/-- C10: an output file whose raw locale language component is exactly `en`
is handled by a special case the spec does not state: the worker clones
`en_GB.json`'s contents into it and writes its Done Marker, making zero
provider invocations, leaving the shared cache untouched, and never reaching
the reference-file scan. -/
theorem en_locale_clone_special_case (source : Dict) (provider : String → Provider)
    (stop : StopOracle) (filename : String) (fs : FS) (cache : Cache) (poll : Nat) (d : Dict)
    (hstop : stop poll = false)
    (hnotdone : fs.done.contains filename = false)
    (hraw : get_target_language filename = "en")
    (hen : List.lookup "en_GB.json" fs.files = some d) :
    process_translation_file filename source provider stop fs cache poll =
      ⟨addDone (setFile fs filename d) filename, cache, 0, 0, poll + 1, false⟩ ∧
    List.lookup filename
        (process_translation_file filename source provider stop fs cache poll).fs.files =
      some d ∧
    filename ∈ (process_translation_file filename source provider stop fs cache poll).fs.done ∧
    (process_translation_file filename source provider stop fs cache poll).calls = 0 ∧
    (process_translation_file filename source provider stop fs cache poll).scans = 0 ∧
    (process_translation_file filename source provider stop fs cache poll).cache = cache := by
  have hproc : process_translation_file filename source provider stop fs cache poll =
      ⟨addDone (setFile fs filename d) filename, cache, 0, 0, poll + 1, false⟩ := by
    unfold process_translation_file
    rw [hstop]
    dsimp only
    rw [hnotdone, hraw]
    simp only [Bool.false_eq_true, if_false, beq_self_eq_true, if_true]
    rw [hen]
  refine ⟨hproc, ?_, ?_, ?_, ?_, ?_⟩
  · rw [hproc]
    show List.lookup filename (addDone (setFile fs filename d) filename).files = _
    rw [addDone_files, lookup_setFile_self]
  · rw [hproc]
    exact mem_addDone_self _ _
  · rw [hproc]
  · rw [hproc]
  · rw [hproc]

theorem en_locale_clone_special_case_witness :
    process_translation_file "en_US.json" [("hello", "Hello"), ("bye", "Goodbye")]
        (fun _ => provFatal) (fun _ => false) fsEnglish [] 0 =
      ⟨addDone (setFile fsEnglish "en_US.json"
          [("hello", "Hello"), ("bye", "Goodbye")]) "en_US.json",
        [], 0, 0, 0 + 1, false⟩ ∧
    List.lookup "en_US.json"
        (process_translation_file "en_US.json" [("hello", "Hello"), ("bye", "Goodbye")]
          (fun _ => provFatal) (fun _ => false) fsEnglish [] 0).fs.files =
      some [("hello", "Hello"), ("bye", "Goodbye")] ∧
    "en_US.json" ∈ (process_translation_file "en_US.json"
      [("hello", "Hello"), ("bye", "Goodbye")] (fun _ => provFatal) (fun _ => false)
      fsEnglish [] 0).fs.done ∧
    (process_translation_file "en_US.json" [("hello", "Hello"), ("bye", "Goodbye")]
      (fun _ => provFatal) (fun _ => false) fsEnglish [] 0).calls = 0 ∧
    (process_translation_file "en_US.json" [("hello", "Hello"), ("bye", "Goodbye")]
      (fun _ => provFatal) (fun _ => false) fsEnglish [] 0).scans = 0 ∧
    (process_translation_file "en_US.json" [("hello", "Hello"), ("bye", "Goodbye")]
      (fun _ => provFatal) (fun _ => false) fsEnglish [] 0).cache = [] :=
  en_locale_clone_special_case [("hello", "Hello"), ("bye", "Goodbye")] (fun _ => provFatal)
    (fun _ => false) "en_US.json" fsEnglish [] 0 [("hello", "Hello"), ("bye", "Goodbye")]
    rfl (by decide) (by decide) (by decide)

end BatchTranslator
